import Mathlib

/-!
Verification of the OPL2 synthesizer voice-allocation core.

Shallow embedding of `OPL2_Synthesizer.ino`: the channel table, the
allocation routine `getChannel`, the per-tick key scan `manageKeys`, the
base-note transposition `altBase`, the note mapping of
`playNoteFromBase`, and the settings pass `manageSettings`.  Calls into
the external OPL2 driver are recorded as events; byte arithmetic is
modelled on `Nat` with explicit `% 256` where the C code stores into a
`byte`.
-/

namespace OPL2

/-! Configuration constants, from the `#define`s of the source. -/

def NONE : Int := -1

def BASE_NOTE : Nat := 36
def LOWEST_NOTE : Nat := 0
def HIGHEST_NOTE : Nat := 96

def FIRST_KEY_PIN : Nat := 2
def MOVE_UP_1_PIN : Nat := 6
def MOVE_DOWN_1_PIN : Nat := 5

def AMOUNT_OF_KEYS : Nat := 3
def AMOUNT_OF_EXTRA_KEYS : Nat := 2
def AMOUNT_OF_CHANNELS : Nat := 8
def AMOUNT_OF_SETTINGS : Nat := 5

/-- The `Channel` struct: `int id; int pressedKey; bool playing;`.
`id` only ever holds loop counters `0..AMOUNT_OF_CHANNELS-1`, so it is
modelled as `Nat`; `pressedKey` is a genuine `int` that can hold
`NONE = -1`. -/
structure Channel where
  id : Nat
  pressedKey : Int
  playing : Bool
deriving DecidableEq

/-- Default channel value used for out-of-range array reads. -/
def chanDefault : Channel := { id := 0, pressedKey := NONE, playing := false }

/-- Fixed settings flags of the source (`currently can't be changed`). -/
def tremolo : Bool := true

def vibrato : Bool := true

/-- Calls made to the external OPL2 driver, recorded as events. -/
inductive Event where
  | setTremolo (ch : Nat) (v : Bool)
  | setVibrato (ch : Nat) (v : Bool)
  | setMultiplier (ch : Nat) (v : Nat)
  | setAttack (ch : Nat) (v : Nat)
  | setDecay (ch : Nat) (v : Nat)
  | setSustain (ch : Nat) (v : Nat)
  | setRelease (ch : Nat) (v : Nat)
  | playNote (ch : Nat) (octave : Nat) (note : Nat)
deriving DecidableEq

/-- In-place update of one array slot: `arr[i] = f(arr[i])`. -/
def updAt {α : Type} : List α → Nat → (α → α) → List α
  | [], _, _ => []
  | c :: t, 0, f => f c :: t
  | c :: t, n + 1, f => c :: updAt t n f

/-- Condition of the first scan loop of `getChannel`:
`channels[a].pressedKey == key && !channels[a].playing`. -/
def matchKey (key : Nat) (c : Channel) : Bool :=
  c.pressedKey == (key : Int) && !c.playing

/-- Condition of the second scan loop of `getChannel`:
`channels[b].pressedKey == NONE && !channels[b].playing`. -/
def matchFree (c : Channel) : Bool :=
  c.pressedKey == NONE && !c.playing

/-- `getChannel(byte key)`: scan for a channel already holding `key`,
then for a free one, and fall back to `channels[0]`.  A C for-loop with
early return over the fixed array is a first-match search in index
order, i.e. `List.find?`. -/
def getChannel (cs : List Channel) (key : Nat) : Channel :=
  match cs.find? (matchKey key) with
  | some c => c
  | none =>
    match cs.find? matchFree with
    | some c => c
    | none => cs.getD 0 chanDefault

/-- `playNoteFromBase` note arithmetic (`byte note = base + offset;`
then `note % 12` and `(note - noteInScale) / 12`), returning the
`(octive, noteInScale)` pair handed to `opl2.playNote`. -/
def noteMapper (base offset : Nat) : Nat × Nat :=
  let note := (base + offset) % 256
  let noteInScale := note % 12
  let octive := (note - noteInScale) / 12
  (octive, noteInScale)

/-- `playNoteFromBase(byte channel, byte offset)` as the driver call it
performs. -/
def playNoteFromBase (base : Nat) (channel offset : Nat) : Event :=
  Event.playNote channel (noteMapper base offset).1 (noteMapper base offset).2

/-- `altBase(int alt)`: add `alt` to the byte `base` only when the
result stays in `[LOWEST_NOTE, HIGHEST_NOTE - AMOUNT_OF_KEYS)`; the
comparison happens in `int`, the store back into a `byte`. -/
def altBase (base : Nat) (alt : Int) : Nat :=
  if (LOWEST_NOTE : Int) ≤ (base : Int) + alt ∧
      (base : Int) + alt < (HIGHEST_NOTE : Int) - (AMOUNT_OF_KEYS : Int) then
    ((base : Int) + alt).toNat % 256
  else base

/-- `n` repetitions of `altBase (+1)` followed by `altBase (-1)`. -/
def altPairIter : Nat → Nat → Nat
  | 0, b => b
  | n + 1, b => altPairIter n (altBase (altBase b 1) (-1))

/-- Body of the key loop of `manageKeys` for one key: resolve a channel,
then either commit a press, clear a release, or do nothing. -/
def keyStep (base : Nat) (input : Nat → Bool) (cs : List Channel) (key : Nat) :
    List Channel × List Event :=
  let channel := getChannel cs key
  if input (key + FIRST_KEY_PIN) && (channel.pressedKey == NONE) then
    (updAt cs channel.id (fun ch => { ch with pressedKey := (key : Int) }),
      [playNoteFromBase base channel.id key])
  else if !input (key + FIRST_KEY_PIN) && (channel.pressedKey == (key : Int)) then
    (updAt cs channel.id (fun ch => { ch with pressedKey := NONE }), [])
  else (cs, [])

/-- The key loop of `manageKeys`: `for (byte key = 0; key < AMOUNT_OF_KEYS; key++)`. -/
def manageKeysPass (base : Nat) (input : Nat → Bool) (cs : List Channel) :
    List Channel × List Event :=
  (List.range AMOUNT_OF_KEYS).foldl
    (fun acc key =>
      let r := keyStep base input acc.1 key
      (r.1, acc.2 ++ r.2))
    (cs, [])

/-- One iteration of the first loop of `manageSettings`: sample analog
input `i` (stored into a `byte`, hence `% 256`), quantize by 64, and
accept the new value only when it differs and the raw byte is
non-zero. -/
def settingsStep (analogIn : Nat → Nat) (s : List Nat) (i : Nat) : List Nat :=
  let analog := analogIn i % 256
  let value := analog / 64
  if s.getD i 0 != value && analog != 0 then updAt s i (fun _ => value) else s

/-- First loop of `manageSettings`:
`for (byte i = 0; i < AMOUNT_OF_SETTINGS; i++)`. -/
def settingsUpdate (analogIn : Nat → Nat) (settings : List Nat) : List Nat :=
  (List.range AMOUNT_OF_SETTINGS).foldl (settingsStep analogIn) settings

/-- Second loop of `manageSettings`: push the current settings to every
channel that is not playing. -/
def settingsApplyPass (cs : List Channel) (s : List Nat) : List Event :=
  (List.range AMOUNT_OF_CHANNELS).foldl
    (fun evs i =>
      if (cs.getD i chanDefault).playing then evs
      else evs ++
        [Event.setTremolo i tremolo, Event.setVibrato i vibrato,
          Event.setMultiplier i (s.getD 0 0), Event.setAttack i (s.getD 1 0),
          Event.setDecay i (s.getD 2 0), Event.setSustain i (s.getD 3 0),
          Event.setRelease i (s.getD 4 0)])
    []

/-- The settings-apply loop with its `!channels[i].playing` test removed:
what "the settings are applied to every channel" denotes. -/
def fullSettingsEvents (s : List Nat) : List Event :=
  (List.range AMOUNT_OF_CHANNELS).foldl
    (fun evs i =>
      evs ++
        [Event.setTremolo i tremolo, Event.setVibrato i vibrato,
          Event.setMultiplier i (s.getD 0 0), Event.setAttack i (s.getD 1 0),
          Event.setDecay i (s.getD 2 0), Event.setSustain i (s.getD 3 0),
          Event.setRelease i (s.getD 4 0)])
    []

/-- Global mutable state of the sketch: `base`, `channels`, `settings`. -/
structure SState where
  base : Nat
  channels : List Channel
  settings : List Nat
deriving DecidableEq

/-- One tick's sampled inputs: digital pin levels and analog readings. -/
structure Input where
  digital : Nat → Bool
  analog : Nat → Nat

/-- `manageSettings()`: update the settings vector, then distribute it
to the non-playing channels. -/
def manageSettings (analogIn : Nat → Nat) (st : SState) : SState × List Event :=
  let s := settingsUpdate analogIn st.settings
  ({ st with settings := s }, settingsApplyPass st.channels s)

/-- `manageKeys()`: the key scan followed by the two transpose pins
(down first, then up, as in the source). -/
def manageKeys (input : Nat → Bool) (st : SState) : SState × List Event :=
  let r := manageKeysPass st.base input st.channels
  let b1 := if input MOVE_DOWN_1_PIN then altBase st.base (-1) else st.base
  let b2 := if input MOVE_UP_1_PIN then altBase b1 1 else b1
  ({ st with channels := r.1, base := b2 }, r.2)

/-- `loop()`: `manageSettings(); manageKeys();` (the trailing `delay`
has no observable state). -/
def tick (inp : Input) (st : SState) : SState × List Event :=
  let r1 := manageSettings inp.analog st
  let r2 := manageKeys inp.digital r1.1
  (r2.1, r1.2 ++ r2.2)

/-- Run a sequence of ticks, keeping only the state. -/
def runTicks (inputs : List Input) (st : SState) : SState :=
  inputs.foldl (fun s inp => (tick inp s).1) st

/-- The channel table as `setup()` leaves it:
`channels[i] = (Channel) { i, NONE, false }`. -/
def initChannels : List Channel :=
  (List.range AMOUNT_OF_CHANNELS).map
    (fun i => { id := i, pressedKey := NONE, playing := false })

/-- The settings vector's initializer `{0x08, 0x0A, 0x04, 0x04, 0x0F}`. -/
def initSettings : List Nat := [0x08, 0x0A, 0x04, 0x04, 0x0F]

/-- One scan loop of `getChannel` with the channel table threaded as
state, each iteration reading the table anew, to mirror the statement
sequence of the C function (which only reads the global array). -/
def findFromSt (p : Channel → Bool) (a : Nat) (cs : List Channel) :
    Option Channel × List Channel :=
  if h : a < cs.length then
    if p (cs.get ⟨a, h⟩) then (some (cs.get ⟨a, h⟩), cs)
    else findFromSt p (a + 1) cs
  else (none, cs)
termination_by cs.length - a

/-- `getChannel` in state-threading form: the returned channel together
with the channel table as the call leaves it. -/
def getChannelSt (key : Nat) (cs : List Channel) : Channel × List Channel :=
  match findFromSt (matchKey key) 0 cs with
  | (some c, cs1) => (c, cs1)
  | (none, cs1) =>
    match findFromSt matchFree 0 cs1 with
    | (some c, cs2) => (c, cs2)
    | (none, cs2) => (cs2.getD 0 chanDefault, cs2)

/-- Input sample with only the first piano key's pin high. -/
def inpKey0 : Input := ⟨fun p => p == FIRST_KEY_PIN, fun _ => 0⟩

/-- Input sample with every digital pin high. -/
def inpAllHigh : Input := ⟨fun _ => true, fun _ => 0⟩

/-- The state `setup()` leaves (with the analog inputs reading zero). -/
def st0 : SState := ⟨BASE_NOTE, initChannels, initSettings⟩

/-- A channel table whose eight channels are all bound (to key
values 10..17) and none playing: the exhausted-table example. -/
def csFull : List Channel :=
  [⟨0, 10, false⟩, ⟨1, 11, false⟩, ⟨2, 12, false⟩, ⟨3, 13, false⟩,
    ⟨4, 14, false⟩, ⟨5, 15, false⟩, ⟨6, 16, false⟩, ⟨7, 17, false⟩]

/-- Every channel record sits at the array slot its `id` names, as
`setup()` arranges and nothing ever changes. -/
def idsOk (cs : List Channel) : Prop :=
  ∀ i, i < cs.length → (cs.getD i chanDefault).id = i

/-- No channel has its `playing` flag set. -/
def allNotPlaying (cs : List Channel) : Prop :=
  ∀ i, i < cs.length → (cs.getD i chanDefault).playing = false

/-- No two distinct channels hold the same key. -/
def atMostOneBinding (cs : List Channel) : Prop :=
  ∀ k : Int, k ≠ NONE → ∀ i j, i < cs.length → j < cs.length → i ≠ j →
    (cs.getD i chanDefault).pressedKey = k →
    (cs.getD j chanDefault).pressedKey ≠ k

/-- The channel-table invariant maintained by the sketch. -/
def ChanInv (cs : List Channel) : Prop :=
  cs.length = AMOUNT_OF_CHANNELS ∧ idsOk cs ∧ allNotPlaying cs ∧ atMostOneBinding cs

/-! ## Helper lemmas on `updAt` and `List.find?` -/

theorem updAt_length {α : Type} (l : List α) (i : Nat) (f : α → α) :
    (updAt l i f).length = l.length := by
  induction l generalizing i with
  | nil => rfl
  | cons a t ih =>
    cases i with
    | zero => rfl
    | succ n => simp [updAt, ih]

theorem updAt_getD_self {α : Type} (l : List α) (i : Nat) (f : α → α) (d : α)
    (h : i < l.length) : (updAt l i f).getD i d = f (l.getD i d) := by
  induction l generalizing i with
  | nil => simp at h
  | cons a t ih =>
    cases i with
    | zero => simp [updAt]
    | succ n =>
      simp only [updAt, List.getD_cons_succ]
      exact ih n (by simpa using h)

theorem updAt_getD_ne {α : Type} (l : List α) (i j : Nat) (f : α → α) (d : α)
    (h : j ≠ i) : (updAt l i f).getD j d = l.getD j d := by
  induction l generalizing i j with
  | nil => rfl
  | cons a t ih =>
    cases i with
    | zero =>
      cases j with
      | zero => exact absurd rfl h
      | succ m => simp [updAt]
    | succ n =>
      cases j with
      | zero => simp [updAt]
      | succ m =>
        simp only [updAt, List.getD_cons_succ]
        exact ih n m (by omega)

theorem find?_eq_some_of_first {α : Type} (p : α → Bool) (l : List α) (d : α) (i : Nat)
    (hi : i < l.length) (hp : p (l.getD i d) = true)
    (hmin : ∀ j, j < i → p (l.getD j d) = false) :
    l.find? p = some (l.getD i d) := by
  induction l generalizing i with
  | nil => simp at hi
  | cons a t ih =>
    cases i with
    | zero =>
      simp only [List.getD_cons_zero] at hp ⊢
      exact List.find?_cons_of_pos _ hp
    | succ n =>
      have h0 : p a = false := by simpa using hmin 0 (by omega)
      rw [List.find?_cons_of_neg _ (by simp [h0])]
      simp only [List.getD_cons_succ]
      exact ih n (by simpa using hi) (by simpa using hp)
        (fun j hj => by simpa using hmin (j + 1) (by omega))

theorem find?_eq_none_of_all {α : Type} (p : α → Bool) (l : List α) (d : α)
    (h : ∀ i, i < l.length → p (l.getD i d) = false) :
    l.find? p = none := by
  apply List.find?_eq_none.mpr
  intro a ha
  obtain ⟨i, hi, rfl⟩ := List.mem_iff_getElem.mp ha
  have hh := h i hi
  rw [List.getD_eq_getElem _ _ hi] at hh
  simp [hh]

theorem find?_none_getD {α : Type} (p : α → Bool) (l : List α) (d : α)
    (hn : l.find? p = none) (i : Nat) (hi : i < l.length) :
    p (l.getD i d) = false := by
  have hmem : l.getD i d ∈ l := by
    rw [List.getD_eq_getElem _ _ hi]
    exact List.getElem_mem hi
  have := List.find?_eq_none.mp hn _ hmem
  simpa using this

theorem find?_some_getD {α : Type} (p : α → Bool) (l : List α) (d : α) (c : α)
    (h : l.find? p = some c) : ∃ i, i < l.length ∧ l.getD i d = c := by
  obtain ⟨i, hi, hEq⟩ := List.mem_iff_getElem.mp (List.mem_of_find?_eq_some h)
  exact ⟨i, hi, by rw [List.getD_eq_getElem _ _ hi]; exact hEq⟩

theorem getD_mem {α : Type} (l : List α) (d : α) (i : Nat) (hi : i < l.length) :
    l.getD i d ∈ l := by
  rw [List.getD_eq_getElem _ _ hi]
  exact List.getElem_mem hi

/-! ## The allocation routine `getChannel` -/

theorem getChannel_pos (cs : List Channel) (key : Nat) (hne : cs ≠ []) :
    ∃ i, i < cs.length ∧ cs.getD i chanDefault = getChannel cs key := by
  unfold getChannel
  cases h1 : cs.find? (matchKey key) with
  | some c => exact find?_some_getD _ _ _ _ h1
  | none =>
    cases h2 : cs.find? matchFree with
    | some c => exact find?_some_getD _ _ _ _ h2
    | none => exact ⟨0, List.length_pos.mpr hne, rfl⟩

/-- Claim C1: `getChannel` is first-fit with the documented tie-break
order: the first channel (lowest index) matching
`pressedKey == key && !playing`; failing that, the first matching
`pressedKey == NONE && !playing`; failing that, channel 0
unconditionally — the call always returns a channel. -/
theorem getChannel_first_fit (cs : List Channel) (key : Nat)
    (_hlen : cs.length = AMOUNT_OF_CHANNELS) :
    (∀ i, i < cs.length → matchKey key (cs.getD i chanDefault) = true →
      (∀ j, j < i → matchKey key (cs.getD j chanDefault) = false) →
      getChannel cs key = cs.getD i chanDefault) ∧
    ((∀ i, i < cs.length → matchKey key (cs.getD i chanDefault) = false) →
      ∀ i, i < cs.length → matchFree (cs.getD i chanDefault) = true →
      (∀ j, j < i → matchFree (cs.getD j chanDefault) = false) →
      getChannel cs key = cs.getD i chanDefault) ∧
    ((∀ i, i < cs.length → matchKey key (cs.getD i chanDefault) = false) →
      (∀ i, i < cs.length → matchFree (cs.getD i chanDefault) = false) →
      getChannel cs key = cs.getD 0 chanDefault) := by
  refine ⟨?_, ?_, ?_⟩
  · intro i hi hp hmin
    unfold getChannel
    rw [find?_eq_some_of_first (matchKey key) cs chanDefault i hi hp
      (fun j hj => hmin j hj)]
  · intro hall i hi hp hmin
    unfold getChannel
    rw [find?_eq_none_of_all (matchKey key) cs chanDefault hall,
      find?_eq_some_of_first matchFree cs chanDefault i hi hp
        (fun j hj => hmin j hj)]
  · intro hall1 hall2
    unfold getChannel
    rw [find?_eq_none_of_all (matchKey key) cs chanDefault hall1,
      find?_eq_none_of_all matchFree cs chanDefault hall2]

/-- Witness for C1: in the fully bound table, key 12 recovers the
channel at index 2, the one bound to it. -/
theorem getChannel_first_fit_witness :
    getChannel csFull 12 = csFull.getD 2 chanDefault :=
  (getChannel_first_fit csFull 12 (by decide)).1 2 (by decide) (by decide)
    (by decide)

theorem matchKey_true_iff (key : Nat) (c : Channel) :
    matchKey key c = true ↔ c.pressedKey = (key : Int) ∧ c.playing = false := by
  simp [matchKey, Bool.and_eq_true, Bool.not_eq_true']

theorem matchFree_true_iff (c : Channel) :
    matchFree c = true ↔ c.pressedKey = NONE ∧ c.playing = false := by
  simp [matchFree, Bool.and_eq_true, Bool.not_eq_true']

/-! ## The key scan: press edges -/

/-- Claim C3, as amended: on a press-edge (input high, press guard
satisfied) the scan binds the resolved channel to the key and invokes
`playNoteFromBase(c.id, key)`; the `playing` flag is left unchanged
(the source never sets it). -/
theorem press_edge_commits (cs : List Channel) (key base : Nat) (input : Nat → Bool)
    (hids : idsOk cs) (hne : cs ≠ [])
    (hhigh : input (key + FIRST_KEY_PIN) = true)
    (hguard : (getChannel cs key).pressedKey = NONE) :
    (keyStep base input cs key).1 =
      updAt cs (getChannel cs key).id
        (fun ch => { ch with pressedKey := (key : Int) }) ∧
    ((keyStep base input cs key).1.getD (getChannel cs key).id chanDefault).pressedKey
      = (key : Int) ∧
    ((keyStep base input cs key).1.getD (getChannel cs key).id chanDefault).playing
      = (getChannel cs key).playing ∧
    (keyStep base input cs key).2 = [playNoteFromBase base (getChannel cs key).id key] := by
  obtain ⟨i, hi, hgd⟩ := getChannel_pos cs key hne
  have hid : (getChannel cs key).id = i := by rw [← hgd]; exact hids i hi
  have hcond : (input (key + FIRST_KEY_PIN) && ((getChannel cs key).pressedKey == NONE))
      = true := by
    simp [hhigh, hguard]
  have hstep : keyStep base input cs key =
      (updAt cs (getChannel cs key).id
        (fun ch => { ch with pressedKey := (key : Int) }),
       [playNoteFromBase base (getChannel cs key).id key]) := by
    unfold keyStep
    rw [if_pos hcond]
  refine ⟨by rw [hstep], ?_, ?_, by rw [hstep]⟩
  · rw [hstep]
    simp only [hid]
    rw [updAt_getD_self cs i _ chanDefault hi]
  · rw [hstep]
    simp only [hid]
    rw [updAt_getD_self cs i _ chanDefault hi, hgd]

/-- Witness for C3 (amended): pressing key 0 on the freshly initialized
table binds the resolved channel to key 0. -/
theorem press_edge_commits_witness :
    ((keyStep BASE_NOTE inpKey0.digital initChannels 0).1.getD
        (getChannel initChannels 0).id chanDefault).pressedKey = (0 : Int) :=
  (press_edge_commits initChannels 0 BASE_NOTE inpKey0.digital
    (by unfold idsOk; decide) (by decide) (by decide) (by decide)).2.1

/-- Counterexample to C3 as stated: on the press-edge for key 0 from
the initialized table the binding is committed and the note triggered,
yet the channel's `playing` flag is still `false` afterwards — the code
never sets it to `true`. -/
theorem press_edge_active_cex :
    inpAllHigh.digital (0 + FIRST_KEY_PIN) = true ∧
    (getChannel initChannels 0).pressedKey = NONE ∧
    ((keyStep BASE_NOTE inpAllHigh.digital initChannels 0).1.getD
        (getChannel initChannels 0).id chanDefault).pressedKey = (0 : Int) ∧
    (keyStep BASE_NOTE inpAllHigh.digital initChannels 0).2 =
      [playNoteFromBase BASE_NOTE (getChannel initChannels 0).id 0] ∧
    ((keyStep BASE_NOTE inpAllHigh.digital initChannels 0).1.getD
        (getChannel initChannels 0).id chanDefault).playing = false := by decide

/-! ## The key scan: the press guard -/

/-- Claim C4, as amended: with the input for `key` sampled high, no
channel playing, and a free channel available, the scan commits a
binding (triggers a note) exactly when no channel currently holds
`key`; when the table is exhausted (no free channel and none bound to
`key`), the press is a complete no-op — the fallback `channels[0]` is
returned but the commit guard fails. -/
theorem press_commit_iff_unbound (cs : List Channel) (key base : Nat)
    (input : Nat → Bool)
    (hhigh : input (key + FIRST_KEY_PIN) = true)
    (hplay : allNotPlaying cs) (hne : cs ≠ []) :
    ((∃ i, i < cs.length ∧ (cs.getD i chanDefault).pressedKey = NONE) →
      ((keyStep base input cs key).2 ≠ [] ↔
        ¬ ∃ i, i < cs.length ∧ (cs.getD i chanDefault).pressedKey = (key : Int))) ∧
    ((¬ ∃ i, i < cs.length ∧ (cs.getD i chanDefault).pressedKey = NONE) →
      (¬ ∃ i, i < cs.length ∧ (cs.getD i chanDefault).pressedKey = (key : Int)) →
      keyStep base input cs key = (cs, [])) := by
  have hkeyNe : ((key : Int)) ≠ NONE := by simp only [NONE]; omega
  constructor
  · intro hfree
    by_cases hb : ∃ i, i < cs.length ∧ (cs.getD i chanDefault).pressedKey = (key : Int)
    · -- some channel already holds the key: scan 1 finds it, guard fails
      obtain ⟨i, hi, hp⟩ := hb
      have hm : matchKey key (cs.getD i chanDefault) = true :=
        (matchKey_true_iff _ _).mpr ⟨hp, hplay i hi⟩
      have hfind : cs.find? (matchKey key) ≠ none := by
        intro hno
        rw [find?_none_getD (matchKey key) cs chanDefault hno i hi] at hm
        exact Bool.false_ne_true hm
      obtain ⟨c1, hc1⟩ : ∃ c1, cs.find? (matchKey key) = some c1 :=
        Option.ne_none_iff_exists'.mp hfind
      have hc1key : c1.pressedKey = (key : Int) :=
        ((matchKey_true_iff _ _).mp (List.find?_some hc1)).1
      have hget : getChannel cs key = c1 := by
        unfold getChannel
        rw [hc1]
      have hcond : (input (key + FIRST_KEY_PIN) && ((getChannel cs key).pressedKey == NONE))
          = false := by
        have hbeq : (c1.pressedKey == NONE) = false := by
          rw [beq_eq_false_iff_ne, hc1key]
          exact hkeyNe
        rw [hget, hbeq, Bool.and_false]
      have hcond2 : (!input (key + FIRST_KEY_PIN) &&
          ((getChannel cs key).pressedKey == (key : Int))) = false := by
        simp [hhigh]
      have hstep : keyStep base input cs key = (cs, []) := by
        unfold keyStep
        rw [if_neg (by simp [hcond]), if_neg (by simp [hcond2])]
      constructor
      · intro hev
        rw [hstep] at hev
        exact absurd rfl hev
      · intro hnb
        exact absurd ⟨i, hi, hp⟩ hnb
    · -- no channel holds the key: scan 1 fails, scan 2 finds a free one
      have hfind1 : cs.find? (matchKey key) = none := by
        apply find?_eq_none_of_all
        intro i hi
        cases hmk : matchKey key (cs.getD i chanDefault) with
        | false => rfl
        | true =>
          exact absurd ⟨i, hi, ((matchKey_true_iff _ _).mp hmk).1⟩ hb
      obtain ⟨j, hj, hpj⟩ := hfree
      have hmf : matchFree (cs.getD j chanDefault) = true :=
        (matchFree_true_iff _).mpr ⟨hpj, hplay j hj⟩
      have hfind2 : cs.find? matchFree ≠ none := by
        intro hno
        rw [find?_none_getD matchFree cs chanDefault hno j hj] at hmf
        exact Bool.false_ne_true hmf
      obtain ⟨c2, hc2⟩ : ∃ c2, cs.find? matchFree = some c2 :=
        Option.ne_none_iff_exists'.mp hfind2
      have hc2free : c2.pressedKey = NONE :=
        ((matchFree_true_iff _).mp (List.find?_some hc2)).1
      have hget : getChannel cs key = c2 := by
        unfold getChannel
        rw [hfind1, hc2]
      have hcond : (input (key + FIRST_KEY_PIN) && ((getChannel cs key).pressedKey == NONE))
          = true := by
        rw [hget]
        simp [hhigh, hc2free]
      have hstep : keyStep base input cs key =
          (updAt cs (getChannel cs key).id
            (fun ch => { ch with pressedKey := (key : Int) }),
           [playNoteFromBase base (getChannel cs key).id key]) := by
        unfold keyStep
        rw [if_pos hcond]
      rw [hstep]
      exact iff_of_true (by simp) hb
  · intro hnofree hnb
    have hfind1 : cs.find? (matchKey key) = none := by
      apply find?_eq_none_of_all
      intro i hi
      cases hmk : matchKey key (cs.getD i chanDefault) with
      | false => rfl
      | true =>
        exact absurd ⟨i, hi, ((matchKey_true_iff _ _).mp hmk).1⟩ hnb
    have hfind2 : cs.find? matchFree = none := by
      apply find?_eq_none_of_all
      intro i hi
      cases hmf : matchFree (cs.getD i chanDefault) with
      | false => rfl
      | true =>
        exact absurd ⟨i, hi, ((matchFree_true_iff _).mp hmf).1⟩ hnofree
    have hget : getChannel cs key = cs.getD 0 chanDefault := by
      unfold getChannel
      rw [hfind1, hfind2]
    have h0 : (cs.getD 0 chanDefault).pressedKey ≠ NONE := by
      intro hEq
      exact hnofree ⟨0, List.length_pos.mpr hne, hEq⟩
    have hcond : (input (key + FIRST_KEY_PIN) && ((getChannel cs key).pressedKey == NONE))
        = false := by
      have hbeq : ((cs.getD 0 chanDefault).pressedKey == NONE) = false := by
        rw [beq_eq_false_iff_ne]
        exact h0
      rw [hget, hbeq, Bool.and_false]
    have hcond2 : (!input (key + FIRST_KEY_PIN) &&
        ((getChannel cs key).pressedKey == (key : Int))) = false := by
      simp [hhigh]
    unfold keyStep
    rw [if_neg (by simp [hcond]), if_neg (by simp [hcond2])]

/-- Witness for C4 (amended): from the initialized table with key 0
pressed, a note is committed exactly because no channel holds key 0. -/
theorem press_commit_iff_unbound_witness :
    (keyStep BASE_NOTE inpAllHigh.digital initChannels 0).2 ≠ [] ↔
      ¬ ∃ i, i < initChannels.length ∧
        (initChannels.getD i chanDefault).pressedKey = ((0 : Nat) : Int) :=
  (press_commit_iff_unbound initChannels 0 BASE_NOTE inpAllHigh.digital
    (by decide) (by unfold allNotPlaying; decide) (by decide)).1 (by decide)

/-- Counterexample to C4 as stated: in the exhausted table `csFull` no
channel is bound to key 0 and its input is high, yet the scan commits
nothing — `getChannel` falls back to `channels[0]`, whose binding makes
the commit guard fail. -/
theorem press_commit_full_table_cex :
    (∀ i, i < csFull.length → (csFull.getD i chanDefault).pressedKey ≠ ((0 : Nat) : Int)) ∧
    inpAllHigh.digital (0 + FIRST_KEY_PIN) = true ∧
    keyStep BASE_NOTE inpAllHigh.digital csFull 0 = (csFull, []) := by decide

/-! ## Note mapping -/

/-- Claim C5: for `base + offset` below `HIGHEST_NOTE = 96`, the
`playNoteFromBase` arithmetic yields `note_in_octave = (base+offset) % 12`
with `0 ≤ note_in_octave < 12` and `octave * 12 + note_in_octave =
base + offset`. -/
theorem noteMapper_correct (base offset : Nat) (h : base + offset < HIGHEST_NOTE) :
    (noteMapper base offset).1 * 12 + (noteMapper base offset).2 = base + offset ∧
    (noteMapper base offset).2 = (base + offset) % 12 ∧
    (noteMapper base offset).2 < 12 := by
  simp only [HIGHEST_NOTE] at h
  have h256 : (base + offset) % 256 = base + offset := Nat.mod_eq_of_lt (by omega)
  refine ⟨?_, ?_, ?_⟩
  · simp only [noteMapper, h256]
    have h1 : base + offset - (base + offset) % 12 = 12 * ((base + offset) / 12) := by
      conv_lhs => rw [← Nat.div_add_mod (base + offset) 12]
      omega
    rw [h1, Nat.mul_div_cancel_left _ (by norm_num)]
    omega
  · simp [noteMapper, h256]
  · simp only [noteMapper, h256]
    exact Nat.mod_lt _ (by omega)

/-- Witness for C5: base 36 (C3) with key offset 2 plays note 2 of
octave 3 — a D3, as the source's doc comment promises. -/
theorem noteMapper_correct_witness :
    (noteMapper 36 2).1 * 12 + (noteMapper 36 2).2 = 36 + 2 ∧
    (noteMapper 36 2).2 = (36 + 2) % 12 ∧ (noteMapper 36 2).2 < 12 :=
  noteMapper_correct 36 2 (by decide)

/-! ## Base transposition -/

theorem altBase_lt (base : Nat) (alt : Int)
    (h : base < HIGHEST_NOTE - AMOUNT_OF_KEYS) :
    altBase base alt < HIGHEST_NOTE - AMOUNT_OF_KEYS := by
  unfold altBase
  split
  · rename_i hg
    simp only [LOWEST_NOTE, HIGHEST_NOTE, AMOUNT_OF_KEYS] at hg
    simp only [HIGHEST_NOTE, AMOUNT_OF_KEYS]
    omega
  · exact h

/-- Claim C6: `altBase` adds `alt` exactly when the sum stays in
`[LOWEST_NOTE, HIGHEST_NOTE - AMOUNT_OF_KEYS)` and is a silent no-op
otherwise; consequently no sequence of calls ever drives a valid base
out of `[0, 96 - AMOUNT_OF_KEYS)`. -/
theorem altBase_guard_invariant :
    (∀ (base : Nat) (alt : Int),
      ((LOWEST_NOTE : Int) ≤ (base : Int) + alt ∧
          (base : Int) + alt < (HIGHEST_NOTE : Int) - (AMOUNT_OF_KEYS : Int) →
        altBase base alt = ((base : Int) + alt).toNat) ∧
      (¬((LOWEST_NOTE : Int) ≤ (base : Int) + alt ∧
          (base : Int) + alt < (HIGHEST_NOTE : Int) - (AMOUNT_OF_KEYS : Int)) →
        altBase base alt = base)) ∧
    (∀ (base : Nat) (ds : List Int), base < HIGHEST_NOTE - AMOUNT_OF_KEYS →
      ds.foldl altBase base < HIGHEST_NOTE - AMOUNT_OF_KEYS) := by
  constructor
  · intro base alt
    constructor
    · intro hg
      unfold altBase
      rw [if_pos hg]
      have := hg.2
      simp only [LOWEST_NOTE, HIGHEST_NOTE, AMOUNT_OF_KEYS] at this
      omega
    · intro hg
      unfold altBase
      rw [if_neg hg]
  · intro base ds
    induction ds generalizing base with
    | nil => exact fun h => h
    | cons d t ih => exact fun h => ih (altBase base d) (altBase_lt base d h)

/-- Witness for C6: from base 36, shifting up by one lands on 37, an
out-of-range shift is ignored, and a shift sequence stays in range. -/
theorem altBase_guard_invariant_witness :
    altBase 36 1 = ((36 : Int) + 1).toNat ∧
    [(1 : Int), 1, -1, 1].foldl altBase 36 < HIGHEST_NOTE - AMOUNT_OF_KEYS :=
  ⟨(altBase_guard_invariant.1 36 1).1 (by decide),
    altBase_guard_invariant.2 36 [1, 1, -1, 1] (by decide)⟩

/-- Counterexample to C7 as stated: base 92 is inside the valid range
`[0, 96 - AMOUNT_OF_KEYS)`, yet `shift(+1)` is clamped there, so
`shift(+1)` followed by `shift(-1)` lands on 91, not back on 92. -/
theorem shift_roundtrip_cex :
    92 < HIGHEST_NOTE - AMOUNT_OF_KEYS ∧
    altBase (altBase 92 1) (-1) ≠ 92 := by decide

/-- Claim C7 as amended: for every base whose up-shift is itself still
in range (`base + 1 < HIGHEST_NOTE - AMOUNT_OF_KEYS`), any number of
repetitions of `shift(+1)` followed by `shift(-1)` returns the base to
its original value. -/
theorem altPairIter_id (base n : Nat)
    (h : base + 1 < HIGHEST_NOTE - AMOUNT_OF_KEYS) :
    altPairIter n base = base := by
  simp only [HIGHEST_NOTE, AMOUNT_OF_KEYS] at h
  have hup : altBase base 1 = base + 1 := by
    unfold altBase
    rw [if_pos (by simp only [LOWEST_NOTE, HIGHEST_NOTE, AMOUNT_OF_KEYS]; omega)]
    have he : (base : Int) + 1 = ((base + 1 : Nat) : Int) := by push_cast; ring
    rw [he, Int.toNat_natCast]
    omega
  have hdown : altBase (base + 1) (-1) = base := by
    unfold altBase
    rw [if_pos (by simp only [LOWEST_NOTE, HIGHEST_NOTE, AMOUNT_OF_KEYS]; omega)]
    have he : ((base + 1 : Nat) : Int) + -1 = ((base : Nat) : Int) := by push_cast; ring
    rw [he, Int.toNat_natCast]
    omega
  induction n with
  | zero => rfl
  | succ m ih =>
    simp only [altPairIter, hup, hdown]
    exact ih

/-- Witness for C7 (amended): five up/down pairs from base 36 return
to 36. -/
theorem altPairIter_id_witness : altPairIter 5 36 = 36 :=
  altPairIter_id 36 5 (by decide)

/-! ## The settings pass -/

theorem settingsStep_length (analogIn : Nat → Nat) (s : List Nat) (i : Nat) :
    (settingsStep analogIn s i).length = s.length := by
  unfold settingsStep
  dsimp only
  split
  · exact updAt_length s i _
  · rfl

theorem settingsStep_getD_ne (analogIn : Nat → Nat) (s : List Nat) (i j : Nat)
    (h : j ≠ i) : (settingsStep analogIn s i).getD j 0 = s.getD j 0 := by
  unfold settingsStep
  dsimp only
  split
  · exact updAt_getD_ne s i j _ 0 h
  · rfl

theorem settingsStep_getD_self (analogIn : Nat → Nat) (s : List Nat) (i : Nat)
    (hi : i < s.length) :
    (settingsStep analogIn s i).getD i 0 =
      if s.getD i 0 ≠ (analogIn i % 256) / 64 ∧ analogIn i % 256 ≠ 0
      then (analogIn i % 256) / 64 else s.getD i 0 := by
  unfold settingsStep
  dsimp only
  split
  · rename_i hcond
    simp only [Bool.and_eq_true, bne_iff_ne] at hcond
    rw [updAt_getD_self s i _ 0 hi, if_pos hcond]
  · rename_i hcond
    simp only [Bool.and_eq_true, bne_iff_ne] at hcond
    rw [if_neg (by intro hcc; exact hcond ⟨hcc.1, hcc.2⟩)]

theorem settingsFold_getD (analogIn : Nat → Nat) (L : List Nat) :
    ∀ (s : List Nat) (i : Nat), i < s.length →
      (L.foldl (settingsStep analogIn) s).getD i 0 =
        if i ∈ L ∧ (s.getD i 0 ≠ (analogIn i % 256) / 64 ∧ analogIn i % 256 ≠ 0)
        then (analogIn i % 256) / 64 else s.getD i 0 := by
  induction L with
  | nil => intro s i hi; simp
  | cons j t ih =>
    intro s i hi
    simp only [List.foldl_cons]
    by_cases hij : i = j
    · subst hij
      rw [ih (settingsStep analogIn s i) i (by rw [settingsStep_length]; exact hi)]
      rw [settingsStep_getD_self analogIn s i hi]
      by_cases hc : s.getD i 0 ≠ (analogIn i % 256) / 64 ∧ analogIn i % 256 ≠ 0
      · rw [if_pos hc, if_neg (by intro hcc; exact hcc.2.1 rfl),
          if_pos ⟨List.mem_cons_self i t, hc⟩]
      · rw [if_neg hc, if_neg (by intro hcc; exact hc hcc.2),
          if_neg (by intro hcc; exact hc hcc.2)]
    · rw [ih (settingsStep analogIn s j) i (by rw [settingsStep_length]; exact hi)]
      rw [settingsStep_getD_ne analogIn s j i hij]
      by_cases hc : i ∈ t ∧ (s.getD i 0 ≠ (analogIn i % 256) / 64 ∧ analogIn i % 256 ≠ 0)
      · rw [if_pos hc, if_pos ⟨List.mem_cons_of_mem j hc.1, hc.2⟩]
      · rw [if_neg hc,
          if_neg (by intro hcc; exact hc ⟨(List.mem_cons.mp hcc.1).resolve_left hij, hcc.2⟩)]

theorem settingsUpdate_getD (analogIn : Nat → Nat) (s : List Nat) (i : Nat)
    (hi : i < AMOUNT_OF_SETTINGS) (hlen : s.length = AMOUNT_OF_SETTINGS) :
    (settingsUpdate analogIn s).getD i 0 =
      if s.getD i 0 ≠ (analogIn i % 256) / 64 ∧ analogIn i % 256 ≠ 0
      then (analogIn i % 256) / 64 else s.getD i 0 := by
  unfold settingsUpdate
  rw [settingsFold_getD analogIn (List.range AMOUNT_OF_SETTINGS) s i (by omega)]
  have hmem : i ∈ List.range AMOUNT_OF_SETTINGS := List.mem_range.mpr hi
  by_cases hc : s.getD i 0 ≠ (analogIn i % 256) / 64 ∧ analogIn i % 256 ≠ 0
  · rw [if_pos ⟨hmem, hc⟩, if_pos hc]
  · rw [if_neg (by intro hcc; exact hc hcc.2), if_neg hc]

/-- Claim C8: in a settings pass, stored setting `i` changes exactly
when the quantized sample (the raw byte divided by 64) differs from the
stored value AND the raw byte is non-zero; in particular a raw reading
of 0 never changes a stored value. -/
theorem settingsUpdate_change_iff (analogIn : Nat → Nat) (s : List Nat) (i : Nat)
    (hi : i < AMOUNT_OF_SETTINGS) (hlen : s.length = AMOUNT_OF_SETTINGS) :
    ((settingsUpdate analogIn s).getD i 0 ≠ s.getD i 0 ↔
      ((analogIn i % 256) / 64 ≠ s.getD i 0 ∧ analogIn i % 256 ≠ 0)) ∧
    (analogIn i % 256 = 0 → (settingsUpdate analogIn s).getD i 0 = s.getD i 0) := by
  have hmain := settingsUpdate_getD analogIn s i hi hlen
  constructor
  · constructor
    · intro hchange
      by_cases hc : s.getD i 0 ≠ (analogIn i % 256) / 64 ∧ analogIn i % 256 ≠ 0
      · exact ⟨Ne.symm hc.1, hc.2⟩
      · rw [hmain, if_neg hc] at hchange
        exact absurd rfl hchange
    · intro hcc
      rw [hmain, if_pos ⟨Ne.symm hcc.1, hcc.2⟩]
      exact hcc.1
  · intro hz
    rw [hmain, if_neg (by intro hcc; exact hcc.2 hz)]

/-- Witness for C8: a raw sample of 130 on input 0 (quantized to 2)
replaces the stored 8, and a raw sample of 0 would leave it alone. -/
theorem settingsUpdate_change_iff_witness :
    ((settingsUpdate (fun _ => 130) initSettings).getD 0 0 ≠ initSettings.getD 0 0 ↔
      ((130 % 256) / 64 ≠ initSettings.getD 0 0 ∧ 130 % 256 ≠ 0)) ∧
    (130 % 256 = 0 →
      (settingsUpdate (fun _ => 130) initSettings).getD 0 0 = initSettings.getD 0 0) :=
  settingsUpdate_change_iff (fun _ => 130) initSettings 0 (by decide) (by decide)

/-! ## The channel-table invariant -/

theorem keyStep_preserves (base : Nat) (input : Nat → Bool) (cs : List Channel)
    (key : Nat) (h : ChanInv cs) : ChanInv (keyStep base input cs key).1 := by
  obtain ⟨hlen, hids, hplay, huniq⟩ := h
  have hne : cs ≠ [] := by
    intro hnil
    rw [hnil] at hlen
    simp [AMOUNT_OF_CHANNELS] at hlen
  obtain ⟨i, hi, hgd⟩ := getChannel_pos cs key hne
  have hid : (getChannel cs key).id = i := by rw [← hgd]; exact hids i hi
  unfold keyStep
  dsimp only
  split
  · rename_i hcond
    simp only [Bool.and_eq_true, beq_iff_eq] at hcond
    obtain ⟨hinp, hpk⟩ := hcond
    have hfind1 : cs.find? (matchKey key) = none := by
      cases hf : cs.find? (matchKey key) with
      | none => rfl
      | some c0 =>
        have hget : getChannel cs key = c0 := by unfold getChannel; rw [hf]
        have hc0 := (matchKey_true_iff key c0).mp (List.find?_some hf)
        rw [hget, hc0.1] at hpk
        simp only [NONE] at hpk
        omega
    have hnb : ∀ j, j < cs.length →
        (cs.getD j chanDefault).pressedKey ≠ (key : Int) := by
      intro j hj hEq
      have hmk : matchKey key (cs.getD j chanDefault) = true :=
        (matchKey_true_iff _ _).mpr ⟨hEq, hplay j hj⟩
      rw [find?_none_getD (matchKey key) cs chanDefault hfind1 j hj] at hmk
      exact Bool.false_ne_true hmk
    rw [hid]
    refine ⟨?_, ?_, ?_, ?_⟩
    · rw [updAt_length]; exact hlen
    · intro j hj
      rw [updAt_length] at hj
      by_cases hji : j = i
      · subst hji
        rw [updAt_getD_self cs j _ chanDefault hj]
        simpa using hids j hj
      · rw [updAt_getD_ne cs i j _ chanDefault hji]
        exact hids j hj
    · intro j hj
      rw [updAt_length] at hj
      by_cases hji : j = i
      · subst hji
        rw [updAt_getD_self cs j _ chanDefault hj]
        simpa using hplay j hj
      · rw [updAt_getD_ne cs i j _ chanDefault hji]
        exact hplay j hj
    · intro k hk a b ha hb hab hpa
      rw [updAt_length] at ha hb
      by_cases hai : a = i
      · subst hai
        rw [updAt_getD_self cs a _ chanDefault ha] at hpa
        have hkk : (key : Int) = k := by simpa using hpa
        rw [updAt_getD_ne cs a b _ chanDefault (Ne.symm hab)]
        intro hEq
        exact hnb b hb (by rw [hEq, ← hkk])
      · by_cases hbi : b = i
        · subst hbi
          rw [updAt_getD_self cs b _ chanDefault hb]
          intro hEq
          have hkk : (key : Int) = k := by simpa using hEq
          rw [updAt_getD_ne cs b a _ chanDefault hai] at hpa
          exact hnb a ha (by rw [hpa, ← hkk])
        · rw [updAt_getD_ne cs i a _ chanDefault hai] at hpa
          rw [updAt_getD_ne cs i b _ chanDefault hbi]
          exact huniq k hk a b ha hb hab hpa
  · split
    · rename_i hcond1 hcond2
      rw [hid]
      refine ⟨?_, ?_, ?_, ?_⟩
      · rw [updAt_length]; exact hlen
      · intro j hj
        rw [updAt_length] at hj
        by_cases hji : j = i
        · subst hji
          rw [updAt_getD_self cs j _ chanDefault hj]
          simpa using hids j hj
        · rw [updAt_getD_ne cs i j _ chanDefault hji]
          exact hids j hj
      · intro j hj
        rw [updAt_length] at hj
        by_cases hji : j = i
        · subst hji
          rw [updAt_getD_self cs j _ chanDefault hj]
          simpa using hplay j hj
        · rw [updAt_getD_ne cs i j _ chanDefault hji]
          exact hplay j hj
      · intro k hk a b ha hb hab hpa
        rw [updAt_length] at ha hb
        by_cases hai : a = i
        · subst hai
          rw [updAt_getD_self cs a _ chanDefault ha] at hpa
          have : NONE = k := by simpa using hpa
          exact absurd this.symm hk
        · by_cases hbi : b = i
          · subst hbi
            rw [updAt_getD_self cs b _ chanDefault hb]
            intro hEq
            have : NONE = k := by simpa using hEq
            exact hk this.symm
          · rw [updAt_getD_ne cs i a _ chanDefault hai] at hpa
            rw [updAt_getD_ne cs i b _ chanDefault hbi]
            exact huniq k hk a b ha hb hab hpa
    · exact ⟨hlen, hids, hplay, huniq⟩

theorem foldKeys_preserves (base : Nat) (input : Nat → Bool) (L : List Nat) :
    ∀ acc : List Channel × List Event, ChanInv acc.1 →
      ChanInv ((L.foldl
        (fun acc key =>
          let r := keyStep base input acc.1 key
          (r.1, acc.2 ++ r.2)) acc).1) := by
  induction L with
  | nil => intro acc h; simpa using h
  | cons k t ih =>
    intro acc h
    simp only [List.foldl_cons]
    exact ih _ (keyStep_preserves base input acc.1 k h)

theorem manageKeysPass_preserves (base : Nat) (input : Nat → Bool)
    (cs : List Channel) (h : ChanInv cs) :
    ChanInv (manageKeysPass base input cs).1 := by
  unfold manageKeysPass
  exact foldKeys_preserves base input (List.range AMOUNT_OF_KEYS) (cs, []) h

theorem tick_preserves (inp : Input) (st : SState) (h : ChanInv st.channels) :
    ChanInv (tick inp st).1.channels := by
  unfold tick manageSettings manageKeys
  dsimp only
  exact manageKeysPass_preserves _ _ _ h

theorem runTicks_preserves (inputs : List Input) (st : SState)
    (h : ChanInv st.channels) : ChanInv (runTicks inputs st).channels := by
  induction inputs generalizing st with
  | nil => simpa [runTicks] using h
  | cons inp t ih => exact ih ((tick inp st).1) (tick_preserves inp st h)

theorem initChannels_ChanInv : ChanInv initChannels := by
  refine ⟨by decide, by unfold idsOk; decide, by unfold allNotPlaying; decide, ?_⟩
  intro k hk a b ha hb hab hpa
  have hobs : (initChannels.getD a chanDefault).pressedKey = NONE := by
    have ha8 : a < 8 := by simpa [initChannels, AMOUNT_OF_CHANNELS] using ha
    interval_cases a <;> rfl
  rw [hobs] at hpa
  exact absurd hpa.symm hk

/-- Claim C2: from the initialized channel table, after any sequence of
ticks, no two distinct channels are bound to the same key. -/
theorem at_most_one_binding_reachable (base0 : Nat) (s0 : List Nat)
    (inputs : List Input) (k : Int) (hk : k ≠ NONE) (i j : Nat)
    (hi : i < ((runTicks inputs ⟨base0, initChannels, s0⟩).channels).length)
    (hj : j < ((runTicks inputs ⟨base0, initChannels, s0⟩).channels).length)
    (hij : i ≠ j)
    (hbound : (((runTicks inputs ⟨base0, initChannels, s0⟩).channels).getD i
      chanDefault).pressedKey = k) :
    (((runTicks inputs ⟨base0, initChannels, s0⟩).channels).getD j
      chanDefault).pressedKey ≠ k :=
  (runTicks_preserves inputs ⟨base0, initChannels, s0⟩
    initChannels_ChanInv).2.2.2 k hk i j hi hj hij hbound

/-- Witness for C2: after one tick with key 0 pressed, channel 0 holds
key 0 and channel 1 does not. -/
theorem at_most_one_binding_reachable_witness :
    (((runTicks [inpKey0] ⟨BASE_NOTE, initChannels, initSettings⟩).channels).getD 1
      chanDefault).pressedKey ≠ (0 : Int) :=
  at_most_one_binding_reachable BASE_NOTE initSettings [inpKey0] 0 (by decide)
    0 1 (by decide) (by decide) (by decide) (by decide)

/-! ## The `playing` flag -/

theorem applyFold_all (cs : List Channel) (s : List Nat)
    (hall : ∀ i, (cs.getD i chanDefault).playing = false) (L : List Nat) :
    ∀ evs0 : List Event,
      L.foldl
        (fun evs i =>
          if (cs.getD i chanDefault).playing then evs
          else evs ++
            [Event.setTremolo i tremolo, Event.setVibrato i vibrato,
              Event.setMultiplier i (s.getD 0 0), Event.setAttack i (s.getD 1 0),
              Event.setDecay i (s.getD 2 0), Event.setSustain i (s.getD 3 0),
              Event.setRelease i (s.getD 4 0)]) evs0 =
      L.foldl
        (fun evs i =>
          evs ++
            [Event.setTremolo i tremolo, Event.setVibrato i vibrato,
              Event.setMultiplier i (s.getD 0 0), Event.setAttack i (s.getD 1 0),
              Event.setDecay i (s.getD 2 0), Event.setSustain i (s.getD 3 0),
              Event.setRelease i (s.getD 4 0)]) evs0 := by
  induction L with
  | nil => intro evs0; rfl
  | cons a t ih =>
    intro evs0
    simp only [List.foldl_cons]
    rw [hall a, if_neg Bool.false_ne_true]
    exact ih _

theorem settingsApplyPass_all (cs : List Channel) (s : List Nat)
    (h : ∀ i, i < cs.length → (cs.getD i chanDefault).playing = false) :
    settingsApplyPass cs s = fullSettingsEvents s := by
  have hall : ∀ i, (cs.getD i chanDefault).playing = false := by
    intro i
    by_cases hi : i < cs.length
    · exact h i hi
    · rw [List.getD_eq_default _ _ (by omega)]
      rfl
  unfold settingsApplyPass fullSettingsEvents
  exact applyFold_all cs s hall (List.range AMOUNT_OF_CHANNELS) []

/-- Claim C10: the `playing` flag is false on every channel of the
initialized table, stays false at every state reachable by ticks (no
operation ever sets it), and consequently the settings pass applies the
settings to every channel. -/
theorem playing_always_false (base0 : Nat) (s0 : List Nat) (inputs : List Input) :
    (∀ c ∈ initChannels, c.playing = false) ∧
    (∀ c ∈ (runTicks inputs ⟨base0, initChannels, s0⟩).channels, c.playing = false) ∧
    (∀ inp : Input,
      settingsApplyPass (runTicks inputs ⟨base0, initChannels, s0⟩).channels
        (settingsUpdate inp.analog (runTicks inputs ⟨base0, initChannels, s0⟩).settings) =
      fullSettingsEvents
        (settingsUpdate inp.analog (runTicks inputs ⟨base0, initChannels, s0⟩).settings)) := by
  have hinv := runTicks_preserves inputs ⟨base0, initChannels, s0⟩ initChannels_ChanInv
  have hplay := hinv.2.2.1
  refine ⟨?_, ?_, ?_⟩
  · intro c hc
    obtain ⟨i, hi, rfl⟩ := List.mem_iff_getElem.mp hc
    have hh := initChannels_ChanInv.2.2.1 i hi
    rwa [List.getD_eq_getElem _ _ hi] at hh
  · intro c hc
    obtain ⟨i, hi, rfl⟩ := List.mem_iff_getElem.mp hc
    have hh := hplay i hi
    rwa [List.getD_eq_getElem _ _ hi] at hh
  · intro inp
    exact settingsApplyPass_all _ _ hplay

/-- Witness for C10: the channel bound to key 0 after a tick with every
key pressed still has `playing = false`. -/
theorem playing_always_false_witness :
    ({ id := 0, pressedKey := 0, playing := false } : Channel).playing = false :=
  (playing_always_false BASE_NOTE initSettings [inpAllHigh]).2.1
    { id := 0, pressedKey := 0, playing := false } (by decide)

/-! ## Purity of the channel lookup -/

theorem findFromSt_snd (p : Channel → Bool) (cs : List Channel) (a : Nat) :
    (findFromSt p a cs).2 = cs := by
  have main : ∀ n a, cs.length - a ≤ n → (findFromSt p a cs).2 = cs := by
    intro n
    induction n with
    | zero =>
      intro a ha
      unfold findFromSt
      rw [dif_neg (by omega)]
    | succ m ih =>
      intro a ha
      unfold findFromSt
      split
      · split
        · rfl
        · exact ih (a + 1) (by omega)
      · rfl
  exact main cs.length a (by omega)

/-- Claim C9: the channel lookup leaves the channel table exactly as it
found it, and two successive lookups with the same key and no
intervening mutation return the same channel. -/
theorem getChannelSt_pure_idempotent (key : Nat) (cs : List Channel) :
    (getChannelSt key cs).2 = cs ∧
    (getChannelSt key ((getChannelSt key cs).2)).1 = (getChannelSt key cs).1 := by
  have hsnd : (getChannelSt key cs).2 = cs := by
    unfold getChannelSt
    rcases h1 : findFromSt (matchKey key) 0 cs with ⟨o1, cs1⟩
    have e1 : cs1 = cs := by
      have hh := findFromSt_snd (matchKey key) cs 0
      rw [h1] at hh
      exact hh
    subst e1
    cases o1 with
    | some c => rfl
    | none =>
      rcases h2 : findFromSt matchFree 0 cs1 with ⟨o2, cs2⟩
      have e2 : cs2 = cs1 := by
        have hh := findFromSt_snd matchFree cs1 0
        rw [h2] at hh
        exact hh
      subst e2
      cases o2 with
      | some c => simp [h2]
      | none => simp [h2]
  exact ⟨hsnd, by rw [hsnd]⟩

end OPL2
